import Mathlib

/-!
Shallow embedding of the demand-settlement core of FoodOPS_V1
(`FoodOPS_V1/core/game.py`, `FoodOPS_V1/core/market.py`,
`FoodOPS_V1/domain/inventory.py`, `FoodOPS_V1/domain/restaurant.py`).

Python numbers are embedded as `Int` (Python `int`) and `ℚ` (Python
`float`, modelled exactly; every concrete value appearing in a theorem
below is chosen so that binary-float rounding cannot change the
comparison).  Python's `round` (banker's rounding) and `int` truncation
are embedded explicitly below.
-/

namespace FoodOps

/-- Python `int(q)`: truncation toward zero. -/
def pyInt (q : ℚ) : Int :=
  if 0 ≤ q then ⌊q⌋ else -⌊-q⌋

/-- Python `round(q)`: round half to even (banker's rounding). -/
def pyRound (q : ℚ) : Int :=
  let f := ⌊q⌋
  let r := q - (f : ℚ)
  if r < 1/2 then f
  else if 1/2 < r then f + 1
  else if f % 2 = 0 then f else f + 1

/-- Python `round(q, 2)`. -/
def pyRound2 (q : ℚ) : ℚ := (pyRound (q * 100) : ℚ) / 100

/-- Python `round(q, 3)`. -/
def pyRound3 (q : ℚ) : ℚ := (pyRound (q * 1000) : ℚ) / 1000

/-! ## Loss attribution — `game.py`, `_apply_client_losses` (lines 323-386) -/

/-- The loss-breakdown dictionary returned by `_apply_client_losses`. -/
structure ClientLosses where
  lost_total : Int
  lost_stock : Int
  lost_capacity : Int
  lost_other : Int
  deriving DecidableEq, Repr

/-- `frac = min(1.0, total_lost / asked)` (game.py:376). -/
def notorietyFrac (total_lost asked : Int) : ℚ :=
  min 1 ((total_lost : ℚ) / (asked : ℚ))

/-- `delta = min(0.10, 0.02 * frac * 100.0)` (game.py:377). -/
def notorietyDelta (total_lost asked : Int) : ℚ :=
  min (10/100) ((2/100) * notorietyFrac total_lost asked * 100)

/-- `max(0.0, min(1.0, round(noto * (1.0 - delta), 3)))` (game.py:379). -/
def updateNotoriety (noto : ℚ) (total_lost asked : Int) : ℚ :=
  max 0 (min 1 (pyRound3 (noto * (1 - notorietyDelta total_lost asked))))

/-- `_apply_client_losses` (game.py:323-386).  Takes the restaurant's
current notoriety plus the five integer arguments and returns the loss
dictionary together with the restaurant's notoriety after the call
(the source mutates `restaurant.notoriety` in place). -/
def applyClientLosses (noto : ℚ) (demanded capacity_rh cap_service
    available_finished sold : Int) : ClientLosses × ℚ :=
  let asked := max 0 demanded
  let cap_stage := max 0 (min asked capacity_rh)
  let cap_service_stage := max 0 (min cap_stage cap_service)
  let stock_stage := max 0 (min cap_service_stage available_finished)
  let served := max 0 sold
  let lost_stock := max 0 (stock_stage - served)
  let lost_capacity := max 0 (cap_service_stage - stock_stage)
  let lost_other := max 0 (asked - max served cap_service_stage)
  let total_lost := lost_stock + lost_capacity + lost_other
  let noto2 :=
    if 0 < asked ∧ 0 < total_lost then updateNotoriety noto total_lost asked
    else noto
  (⟨total_lost, lost_stock, lost_capacity, lost_other⟩, noto2)

/-! ## Service minutes — `restaurant.py` 88-89 and `game.py` 299-320 -/

/-- `Restaurant.consume_service_minutes` (restaurant.py:88-89). -/
def consumeServiceMinutes (minutes_left minutes : Int) : Int :=
  max 0 (minutes_left - minutes)

/-- `need = int(round(min_per_cover * max(0, int(clients_served))))`
(game.py:312). -/
def serviceMinutesNeed (min_per_cover : ℚ) (clients_served : Int) : Int :=
  pyRound (min_per_cover * ((max 0 clients_served : Int) : ℚ))

/-- `_consume_service_minutes` (game.py:299-320): calls the restaurant's
`consume_service_minutes` method AND then unconditionally runs the
"fallback" direct decrement, so the pool is decremented twice. -/
def consumeServiceMinutesTurn (minutes_left : Int) (min_per_cover : ℚ)
    (clients_served : Int) : Int :=
  let need := serviceMinutesNeed min_per_cover clients_served
  let afterMethod := consumeServiceMinutes minutes_left need
  max 0 (afterMethod - need)

/-! ## Finished-goods inventory — `domain/inventory.py` -/

/-- `FinishedBatch` (inventory.py:37-51).  A lot of finished portions.
The source dataclass has no grade field: finished lots carry only a
recipe name, a unit selling price, a portion count and two turn stamps. -/
structure FinishedBatch where
  recipe_name : String
  selling_price : ℚ
  portions : Int
  produced_tour : Int
  expires_tour : Int
  deriving DecidableEq, Repr

/-- `FinishedBatch.is_expired` (inventory.py:50-51). -/
def FinishedBatch.isExpired (b : FinishedBatch) (current_tour : Int) : Prop :=
  current_tour > b.expires_tour

instance (b : FinishedBatch) (t : Int) : Decidable (b.isExpired t) := by
  unfold FinishedBatch.isExpired; infer_instance

/-- The filter `current_tour is not None and b.is_expired(current_tour)`
used by `total_finished_portions` (inventory.py:211). -/
def skipExpired (b : FinishedBatch) : Option Int → Bool
  | some t => decide (b.isExpired t)
  | none => false

/-- The filter `recipe_name is not None and b.recipe_name != recipe_name`
used by `total_finished_portions` (inventory.py:213). -/
def skipRecipe (b : FinishedBatch) : Option String → Bool
  | some nm => decide (b.recipe_name ≠ nm)
  | none => false

/-- `Inventory.total_finished_portions` (inventory.py:201-216): sums
`max(0, portions)` over lots, skipping expired lots when a current tour
is given and other recipes when a recipe name is given. -/
def totalFinishedPortions (lots : List FinishedBatch)
    (recipe_name : Option String) (current_tour : Option Int) : Int :=
  match lots with
  | [] => 0
  | b :: rest =>
    let tail := totalFinishedPortions rest recipe_name current_tour
    if skipExpired b current_tour then tail
    else if skipRecipe b recipe_name then tail
    else max 0 b.portions + tail

/-- The `while` loop of `Inventory.sell_from_finished_fifo`
(inventory.py:225-244): walks the `finished` list in position order
(strict FIFO, no grade sort, no expiry check), silently dropping lots
with `portions <= 0`, taking `min(portions, need)` from each lot at that
lot's own selling price, and removing depleted lots.  Returns
(portions sold, revenue before rounding, remaining lots). -/
def sellFifoGo (need : Int) : List FinishedBatch →
    Int × ℚ × List FinishedBatch
  | [] => (0, 0, [])
  | b :: rest =>
    if need ≤ 0 then (0, 0, b :: rest)
    else if b.portions ≤ 0 then sellFifoGo need rest
    else
      let take := min b.portions need
      let b2 : FinishedBatch := { b with portions := b.portions - take }
      let r := sellFifoGo (need - take) rest
      if b2.portions ≤ 0 then
        (take + r.1, take * b.selling_price + r.2.1, r.2.2)
      else
        (take + r.1, take * b.selling_price + r.2.1, b2 :: r.2.2)

/-- `Inventory.sell_from_finished_fifo` (inventory.py:218-245): the loop
above followed by `round(revenue, 2)`. -/
def sellFromFinishedFifo (qty_portions : Int) (lots : List FinishedBatch) :
    Int × ℚ × List FinishedBatch :=
  let r := sellFifoGo qty_portions lots
  (r.1, pyRound2 r.2.1, r.2.2)

/-- The finished-goods half of `Inventory.cleanup_expired`
(inventory.py:268-269): drop every expired lot. -/
def cleanupExpiredFinished (lots : List FinishedBatch)
    (current_tour : Int) : List FinishedBatch :=
  lots.filter (fun b => ¬ b.isExpired current_tour)

/-! ## Market allocation — `core/market.py`

`allocate_demand` reads, per restaurant: the menu prices (for the budget
gate), the restaurant type (for `SERVICE_SPEED` and the cannibalization
counts) and `local.capacite_clients` (for the exploitable capacity).
The per-segment budget table `BUDGET_PER_SEGMENT` is loaded from
`data/segment_clients.json`, a file absent from the sources; the
embedding therefore takes the table as a parameter
`budgets : Segment → Option ℚ`, and `BUDGET_PER_SEGMENT.get(seg, 15.0)`
(market.py:102) becomes `(budgets seg).getD 15`. -/

/-- `Segment` (domain/market.py:16-23). -/
inductive Segment where
  | etudiant | actif | famille | touriste | senior
  deriving DecidableEq, Repr

/-- `RestaurantType` (domain/types.py:7-11). -/
inductive RType where
  | fastFood | bistro | gastro
  deriving DecidableEq, Repr

/-- A menu item: `allocate_demand`'s call graph reads only its price. -/
structure Recipe where
  price : ℚ
  deriving DecidableEq, Repr

/-- The restaurant fields read by `allocate_demand` and
`clamp_capacity`.  `capacite_clients` is `restaurant.local.capacite_clients`. -/
structure Resto where
  rtype : RType
  menu : List Recipe
  capacite_clients : Int
  deriving DecidableEq, Repr

/-- Ascending insertion used to model `np.median`'s sort. -/
def insertLe (x : ℚ) : List ℚ → List ℚ
  | [] => [x]
  | y :: ys => if x ≤ y then x :: y :: ys else y :: insertLe x ys

/-- Ascending sort used to model `np.median`. -/
def sortLe : List ℚ → List ℚ
  | [] => []
  | x :: xs => insertLe x (sortLe xs)

/-- `np.median` of a nonempty list: middle element of the sorted list,
or the mean of the two middle elements for even length. -/
def npMedian (l : List ℚ) : ℚ :=
  let s := sortLe l
  let n := s.length
  if n % 2 = 1 then s.getD (n / 2) 0
  else (s.getD (n / 2 - 1) 0 + s.getD (n / 2) 0) / 2

/-- `price = np.median(prix_des_items) if prix_des_items else 0.0`
(market.py:98-99). -/
def medianMenuPrice (menu : List Recipe) : ℚ :=
  if menu.isEmpty then 0 else npMedian (menu.map Recipe.price)

/-- `BUDGET_TOLERANCE = 1.20` (market.py:43). -/
def budgetTolerance : ℚ := 12/10

/-- `is_eligible_by_budget` (market.py:95-110) called with a `Segment`
(`customer` is an enum member, so the `isinstance` branch applies):
`price <= budget * BUDGET_TOLERANCE` with
`budget = BUDGET_PER_SEGMENT.get(customer, 15.0)`. -/
def isEligibleByBudget (budgets : Segment → Option ℚ) (r : Resto)
    (seg : Segment) : Prop :=
  medianMenuPrice r.menu ≤ ((budgets seg).getD 15) * budgetTolerance

instance (budgets : Segment → Option ℚ) (r : Resto) (seg : Segment) :
    Decidable (isEligibleByBudget budgets r seg) := by
  unfold isEligibleByBudget; infer_instance

/-- The exception raised by the Python runtime. -/
inductive PyErr where
  | attributeError
  deriving DecidableEq, Repr

/-- `attraction_score` (rules/scoring.py:280-348) as called by
`_ranked_for_segment` (market.py:253) with `seg : Segment`.  Lines
300-315 compute pure local values (median price, menu quality,
visibility, notoriety, concept string); none of them escapes, because
line 317 `seg_key = seg.type_client` dereferences an attribute that
`Segment` enum members do not have and raises `AttributeError`
(the guarded `getattr(seg, "type_client", None)` variant is commented
out at line 316).  The call therefore always raises. -/
def attractionScore (_r : Resto) (_seg : Segment) : Except PyErr ℚ :=
  .error .attributeError

/-- Python's stable `list.sort(key=lambda x: x[1], reverse=True)`
(market.py:262), modelled as a stable insertion sort: an element is
inserted after every element with a strictly greater score and before
the first element whose score is `≤` its own, so equal-score entries
keep their original relative order. -/
def insertDesc (x : Nat × ℚ) : List (Nat × ℚ) → List (Nat × ℚ)
  | [] => [x]
  | y :: ys => if x.2 < y.2 then y :: insertDesc x ys else x :: y :: ys

/-- The descending stable sort of `_ranked_for_segment` (market.py:262). -/
def sortDesc : List (Nat × ℚ) → List (Nat × ℚ)
  | [] => []
  | x :: xs => insertDesc x (sortDesc xs)

/-- The `for index_restaurant, restaurant in enumerate(restaurants)` loop
of `_ranked_for_segment` (market.py:247-259): skip budget-ineligible
restaurants; for an eligible one the source evaluates
`max(0.0, attraction_score(restaurant, segment))`, which raises (see
`attractionScore`), so the loop aborts at the first eligible restaurant.
The `ok` arm of the match is unreachable; its continuation in the source
(multiply by the cannibalization factor `1/max(1, sqrt(1+0.5(n-1)))` and
append `(index, score)`) is dead code in every execution and is not
modelled beyond the recursion. -/
def rankedEntries (budgets : Segment → Option ℚ) (seg : Segment) :
    List (Nat × Resto) → Except PyErr (List (Nat × ℚ))
  | [] => .ok []
  | (_i, r) :: rest =>
    if isEligibleByBudget budgets r seg then
      match attractionScore r seg with
      | .error e => .error e
      | .ok _s => rankedEntries budgets seg rest
    else rankedEntries budgets seg rest

/-- `_ranked_for_segment` (market.py:217-263): build the eligible
`(index, score)` list, then stable-sort it by score descending. -/
def rankedForSegment (budgets : Segment → Option ℚ) (restos : List Resto)
    (seg : Segment) : Except PyErr (List (Nat × ℚ)) :=
  (rankedEntries budgets seg restos.enum).map sortDesc

/-- `SERVICE_SPEED` (market.py:37-41), keyed by the `RestaurantType`
enum; the restaurant's type is modelled as that enum, so
`SERVICE_SPEED.get(type, 1.0)` hits the table.  (The concrete Python
subclasses actually expose a plain string `TYPE`, which would miss this
enum-keyed dict and fall to the `1.0` default; no theorem below depends
on the coefficient's value — `allocate_demand` and `clamp_capacity`
share this one function either way.) -/
def serviceSpeed : RType → ℚ
  | .fastFood => 1
  | .bistro => 8/10
  | .gastro => 5/10

/-- `compute_exploitable_capacity` (market.py:55-92):
`max(0, int(capacite_clients * 2 * 30 * speed))`. -/
def computeExploitableCapacity (r : Resto) : Int :=
  max 0 (pyInt ((r.capacite_clients * 2 * 30 : Int) * serviceSpeed r.rtype))

/-- `Scenario` (domain/scenario.py:15-59): the fields read by
`allocate_demand`.  `segments_share` keeps the declared (insertion)
order of the Python dict. -/
structure Scenario where
  population_total : Int
  segments_share : List (Segment × ℚ)

/-- `compute_segment_quantities` (market.py:189-214):
`int(round(population_total * share))` per declared segment. -/
def computeSegmentQuantities (sc : Scenario) : List (Segment × Int) :=
  sc.segments_share.map
    (fun p => (p.1, pyRound ((sc.population_total : ℚ) * p.2)))

/-- Python dict read `d.get(k, 0)` / `d[k]` on the integer-valued dicts
of `allocate_demand`, modelled as association lists in insertion order
(first matching key wins; a Python dict never holds a duplicate key). -/
def dget : List (Nat × Int) → Nat → Int
  | [], _ => 0
  | p :: d, k => if p.1 = k then p.2 else dget d k

/-- Python dict write `d[k] = v` on a key already present: the value is
replaced, the insertion order is unchanged. -/
def dset (d : List (Nat × Int)) (k : Nat) (v : Int) : List (Nat × Int) :=
  d.map (fun p => if p.1 = k then (k, v) else p)

/-- The greedy inner loop of `allocate_demand` (market.py:328-338) over
the ranked list: `break` once the segment is exhausted, skip restaurants
with no capacity left, otherwise move
`take = min(remaining, capacity_left[i])` customers.  State is the pair
(capacity_left, allocated). -/
def fillLoop : List (Nat × ℚ) → Int →
    List (Nat × Int) × List (Nat × Int) → List (Nat × Int) × List (Nat × Int)
  | [], _, st => st
  | (i, _) :: rest, remaining, (capLeft, alloc) =>
    if remaining ≤ 0 then (capLeft, alloc)
    else if dget capLeft i ≤ 0 then fillLoop rest remaining (capLeft, alloc)
    else
      let take := min remaining (dget capLeft i)
      fillLoop rest (remaining - take)
        (dset capLeft i (dget capLeft i - take),
         dset alloc i (dget alloc i + take))

/-- The outer `for segment, quantity in demand_by_segments.items()` loop
of `allocate_demand` (market.py:312-341): skip non-positive quantities,
rank the restaurants (an exception propagates), skip the segment when
nobody is eligible, otherwise run the greedy fill. -/
def segLoop (budgets : Segment → Option ℚ) (restos : List Resto) :
    List (Segment × Int) → List (Nat × Int) × List (Nat × Int) →
    Except PyErr (List (Nat × Int) × List (Nat × Int))
  | [], st => .ok st
  | (seg, q) :: rest, st =>
    if q ≤ 0 then segLoop budgets restos rest st
    else
      match rankedForSegment budgets restos seg with
      | .error e => .error e
      | .ok ranked =>
        if ranked.isEmpty then segLoop budgets restos rest st
        else segLoop budgets restos rest (fillLoop ranked q st)

/-- `capacity_left` initialisation (market.py:304-307). -/
def initCapLeft (restos : List Resto) : List (Nat × Int) :=
  restos.enum.map (fun p => (p.1, computeExploitableCapacity p.2))

/-- `allocated` initialisation (market.py:309). -/
def initAlloc (restos : List Resto) : List (Nat × Int) :=
  restos.enum.map (fun p => (p.1, (0 : Int)))

/-- `allocate_demand` (market.py:271-342). -/
def allocateDemand (budgets : Segment → Option ℚ) (restos : List Resto)
    (sc : Scenario) : Except PyErr (List (Nat × Int)) :=
  (segLoop budgets restos (computeSegmentQuantities sc)
    (initCapLeft restos, initAlloc restos)).map (·.2)

/-- `clamp_capacity` (market.py:345-356):
`served[i] = min(allocated.get(i, 0), compute_exploitable_capacity(r))`. -/
def clampCapacity (restos : List Resto) (allocated : List (Nat × Int)) :
    List (Nat × Int) :=
  restos.enum.map
    (fun p => (p.1, min (dget allocated p.1) (computeExploitableCapacity p.2)))

/-- Invariant of the `allocate_demand` state: the two dicts share their
key list, remaining capacity is never negative, and per key the
allocation plus the remaining capacity equals the initial capacity. -/
def AllocInv (cap : Nat → Int)
    (st : List (Nat × Int) × List (Nat × Int)) : Prop :=
  st.1.map Prod.fst = st.2.map Prod.fst ∧
  (∀ k, 0 ≤ dget st.1 k) ∧
  (∀ k, dget st.2 k + dget st.1 k = cap k)

/-- The order established by the ranking sort: strictly greater score
first, and original (index) order on equal scores. -/
def rankOrder (a b : Nat × ℚ) : Prop :=
  b.2 < a.2 ∨ (a.2 = b.2 ∧ a.1 < b.1)

/-! ## Rounding lemmas -/

theorem pyRound_le (q : ℚ) : (pyRound q : ℚ) ≤ q + 1/2 := by
  have h0 := Int.floor_le q
  have h1 := Int.lt_floor_add_one q
  unfold pyRound
  dsimp only
  split
  · linarith
  · split
    · push_cast; linarith
    · split <;> push_cast <;> linarith

theorem le_pyRound (q : ℚ) : q - 1/2 ≤ (pyRound q : ℚ) := by
  have h0 := Int.floor_le q
  have h1 := Int.lt_floor_add_one q
  unfold pyRound
  dsimp only
  split
  · linarith
  · split
    · push_cast; linarith
    · split <;> push_cast <;> linarith

theorem pyRound_nonneg (q : ℚ) (h : 0 ≤ q) : 0 ≤ pyRound q := by
  have h0 : 0 ≤ ⌊q⌋ := Int.floor_nonneg.mpr h
  unfold pyRound
  dsimp only
  split
  · exact h0
  · split
    · omega
    · split <;> omega

theorem pyRound_le_of_lt (q : ℚ) (n : Int) (h : q < n) : pyRound q ≤ n := by
  have h0 : ⌊q⌋ < n := by
    have := Int.floor_le q
    exact_mod_cast lt_of_le_of_lt this h
  unfold pyRound
  dsimp only
  split
  · omega
  · split
    · -- here q - ⌊q⌋ > 1/2, so ⌊q⌋ < q hence ⌊q⌋ + 1 ≤ n
      omega
    · split <;> omega

/-- Evaluation rule: a rational strictly inside `(n - 1/2, n + 1/2)`
rounds to `n`. -/
theorem pyRound_eq (q : ℚ) (n : Int) (h1 : (n : ℚ) - 1/2 < q)
    (h2 : q < (n : ℚ) + 1/2) : pyRound q = n := by
  have hfl : ⌊q⌋ = n ∨ ⌊q⌋ = n - 1 := by
    have ha := Int.floor_le q
    have hb := Int.lt_floor_add_one q
    have hc : ⌊q⌋ < n + 1 := by
      have : (⌊q⌋ : ℚ) < (n : ℚ) + 1 := by linarith
      exact_mod_cast this
    have hd : n - 1 ≤ ⌊q⌋ := by
      have : (n : ℚ) - 2 < (⌊q⌋ : ℚ) := by linarith
      have := (by exact_mod_cast this : n - 2 < ⌊q⌋)
      omega
    omega
  unfold pyRound
  dsimp only
  rcases hfl with hfl | hfl
  · have hr : q - (⌊q⌋ : ℚ) < 1/2 := by
      rw [hfl]; linarith
    rw [if_pos hr, hfl]
  · have hr : 1/2 < q - (⌊q⌋ : ℚ) := by
      rw [hfl]; push_cast; linarith
    rw [if_neg (by linarith), if_pos hr]
    omega

/-- Evaluation rule for `round(q, 2)`. -/
theorem pyRound2_eq (q : ℚ) (n : Int) (h1 : (n : ℚ) - 1/2 < q * 100)
    (h2 : q * 100 < (n : ℚ) + 1/2) : pyRound2 q = (n : ℚ) / 100 := by
  unfold pyRound2
  rw [pyRound_eq (q * 100) n h1 h2]

/-- Evaluation rule for `round(q, 3)`. -/
theorem pyRound3_eq (q : ℚ) (n : Int) (h1 : (n : ℚ) - 1/2 < q * 1000)
    (h2 : q * 1000 < (n : ℚ) + 1/2) : pyRound3 q = (n : ℚ) / 1000 := by
  unfold pyRound3
  rw [pyRound_eq (q * 1000) n h1 h2]

/-! ## Association-list (Python dict) lemmas -/

theorem dget_nil (k : Nat) : dget [] k = 0 := rfl

theorem dget_cons (p : Nat × Int) (d : List (Nat × Int)) (k : Nat) :
    dget (p :: d) k = if p.1 = k then p.2 else dget d k := rfl

theorem dset_map_fst (d : List (Nat × Int)) (k : Nat) (v : Int) :
    (dset d k v).map Prod.fst = d.map Prod.fst := by
  induction d with
  | nil => rfl
  | cons p t ih =>
    simp only [dset, List.map_cons] at *
    by_cases h : p.1 = k
    · simp [h, ih]
    · simp [h, ih]

theorem dget_dset_ne (d : List (Nat × Int)) (k j : Nat) (v : Int)
    (h : j ≠ k) : dget (dset d k v) j = dget d j := by
  induction d with
  | nil => rfl
  | cons p t ih =>
    simp only [dset, List.map_cons]
    by_cases hp : p.1 = k
    · rw [if_pos hp, dget_cons, dget_cons, if_neg (by omega), if_neg (by omega)]
      exact ih
    · rw [if_neg hp, dget_cons, dget_cons]
      by_cases hj : p.1 = j
      · rw [if_pos hj, if_pos hj]
      · rw [if_neg hj, if_neg hj]
        exact ih

theorem dget_dset_mem (d : List (Nat × Int)) (k : Nat) (v : Int)
    (h : k ∈ d.map Prod.fst) : dget (dset d k v) k = v := by
  induction d with
  | nil => simp at h
  | cons p t ih =>
    simp only [dset, List.map_cons]
    by_cases hp : p.1 = k
    · rw [if_pos hp, dget_cons, if_pos rfl]
    · rw [if_neg hp, dget_cons, if_neg hp]
      apply ih
      simp only [List.map_cons, List.mem_cons] at h
      rcases h with h | h
      · exact absurd h.symm hp
      · exact h

theorem dget_eq_zero_of_not_mem (d : List (Nat × Int)) (k : Nat)
    (h : k ∉ d.map Prod.fst) : dget d k = 0 := by
  induction d with
  | nil => rfl
  | cons p t ih =>
    simp only [List.map_cons, List.mem_cons, not_or] at h
    rw [dget_cons, if_neg (fun hp => h.1 hp.symm)]
    exact ih h.2

theorem dget_nonneg (d : List (Nat × Int)) (k : Nat)
    (h : ∀ p ∈ d, 0 ≤ p.2) : 0 ≤ dget d k := by
  induction d with
  | nil => simp [dget_nil]
  | cons p t ih =>
    rw [dget_cons]
    by_cases hp : p.1 = k
    · rw [if_pos hp]; exact h p (by simp)
    · rw [if_neg hp]; exact ih (fun q hq => h q (by simp [hq]))

theorem dget_eq_zero_of_all_zero (d : List (Nat × Int)) (k : Nat)
    (h : ∀ p ∈ d, p.2 = 0) : dget d k = 0 := by
  induction d with
  | nil => rfl
  | cons p t ih =>
    rw [dget_cons]
    by_cases hp : p.1 = k
    · rw [if_pos hp]; exact h p (by simp)
    · rw [if_neg hp]; exact ih (fun q hq => h q (by simp [hq]))

/-- An association list with `Nodup` keys is determined by its key list
and its `dget` function. -/
theorem assoc_reconstruct (d : List (Nat × Int)) (K : List Nat)
    (hK : d.map Prod.fst = K) (hnd : K.Nodup) :
    d = K.map (fun k => (k, dget d k)) := by
  induction d generalizing K with
  | nil => simp at hK; simp [← hK]
  | cons p t ih =>
    cases K with
    | nil => simp at hK
    | cons k0 K2 =>
      simp only [List.map_cons, List.cons.injEq] at hK
      obtain ⟨hk0, hK2⟩ := hK
      have hnd2 := List.nodup_cons.mp hnd
      simp only [List.map_cons, List.cons.injEq]
      refine ⟨?_, ?_⟩
      · rw [dget_cons, if_pos hk0]
        exact Prod.ext hk0 rfl
      · have hmap : K2.map (fun k => (k, dget (p :: t) k)) =
            K2.map (fun k => (k, dget t k)) := by
          apply List.map_congr_left
          intro k hk
          have hne : p.1 ≠ k := by
            rw [hk0]
            intro hcontra
            exact hnd2.1 (hcontra ▸ hk)
          rw [dget_cons, if_neg hne]
        rw [hmap]
        exact ih K2 hK2 hnd2.2

/-! ## Allocation-loop invariants -/

theorem fillLoop_inv (cap : Nat → Int) (ranked : List (Nat × ℚ)) (q : Int)
    (st : List (Nat × Int) × List (Nat × Int)) (h : AllocInv cap st) :
    AllocInv cap (fillLoop ranked q st) := by
  induction ranked generalizing q st with
  | nil => simpa [fillLoop] using h
  | cons p rest ih =>
    obtain ⟨i, s⟩ := p
    obtain ⟨cl, al⟩ := st
    obtain ⟨hkeys, hpos, hsum⟩ := h
    replace hkeys : cl.map Prod.fst = al.map Prod.fst := hkeys
    replace hpos : ∀ k, 0 ≤ dget cl k := hpos
    replace hsum : ∀ k, dget al k + dget cl k = cap k := hsum
    rw [fillLoop]
    split
    · exact ⟨hkeys, hpos, hsum⟩
    · split
      · exact ih q (cl, al) ⟨hkeys, hpos, hsum⟩
      · rename_i hq hcl
        apply ih
        have hmem : i ∈ cl.map Prod.fst := by
          by_contra hnot
          rw [dget_eq_zero_of_not_mem cl i hnot] at hcl
          omega
        have hmem2 : i ∈ al.map Prod.fst := hkeys ▸ hmem
        refine ⟨?_, ?_, ?_⟩
        · simpa [dset_map_fst] using hkeys
        · intro k
          by_cases hk : k = i
          · subst hk
            rw [dget_dset_mem cl k _ hmem]
            have := min_le_right q (dget cl k)
            omega
          · rw [dget_dset_ne cl i k _ hk]
            exact hpos k
        · intro k
          by_cases hk : k = i
          · subst hk
            rw [dget_dset_mem cl k _ hmem, dget_dset_mem al k _ hmem2]
            have := hsum k
            omega
          · rw [dget_dset_ne cl i k _ hk, dget_dset_ne al i k _ hk]
            exact hsum k

theorem fillLoop_alloc_keys (ranked : List (Nat × ℚ)) (q : Int)
    (st : List (Nat × Int) × List (Nat × Int)) :
    (fillLoop ranked q st).2.map Prod.fst = st.2.map Prod.fst := by
  induction ranked generalizing q st with
  | nil => simp [fillLoop]
  | cons p rest ih =>
    obtain ⟨i, s⟩ := p
    obtain ⟨cl, al⟩ := st
    rw [fillLoop]
    split
    · rfl
    · split
      · exact ih q (cl, al)
      · rw [ih]
        simp [dset_map_fst]

theorem segLoop_ok_inv (budgets : Segment → Option ℚ) (restos : List Resto)
    (cap : Nat → Int) (segs : List (Segment × Int))
    (st st' : List (Nat × Int) × List (Nat × Int))
    (h : AllocInv cap st) (hok : segLoop budgets restos segs st = .ok st') :
    AllocInv cap st' := by
  induction segs generalizing st with
  | nil =>
    rw [segLoop] at hok
    cases hok
    exact h
  | cons p rest ih =>
    obtain ⟨seg, q⟩ := p
    rw [segLoop] at hok
    split at hok
    · exact ih st h hok
    · split at hok
      · simp at hok
      · rename_i ranked hrk
        split at hok
        · exact ih st h hok
        · exact ih _ (fillLoop_inv cap ranked q st h) hok

theorem segLoop_ok_alloc_keys (budgets : Segment → Option ℚ)
    (restos : List Resto) (segs : List (Segment × Int))
    (st st' : List (Nat × Int) × List (Nat × Int))
    (hok : segLoop budgets restos segs st = .ok st') :
    st'.2.map Prod.fst = st.2.map Prod.fst := by
  induction segs generalizing st with
  | nil =>
    rw [segLoop] at hok
    cases hok
    rfl
  | cons p rest ih =>
    obtain ⟨seg, q⟩ := p
    rw [segLoop] at hok
    split at hok
    · exact ih st hok
    · split at hok
      · simp at hok
      · rename_i ranked hrk
        split at hok
        · exact ih st hok
        · rw [ih _ hok, fillLoop_alloc_keys]

/-! ## Initial-state lemmas -/

theorem map_fst_enum_map {α β : Type} (l : List α) (f : Nat × α → β) :
    ((l.enum.map (fun p => (p.1, f p))).map Prod.fst) =
      List.range l.length := by
  rw [List.map_map]
  have hcomp : (Prod.fst ∘ fun p : Nat × α => (p.1, f p)) = Prod.fst := by
    funext p; rfl
  rw [hcomp, List.enum_map_fst]

theorem initCapLeft_map_fst (restos : List Resto) :
    (initCapLeft restos).map Prod.fst = List.range restos.length :=
  map_fst_enum_map restos (fun p => computeExploitableCapacity p.2)

theorem initAlloc_map_fst (restos : List Resto) :
    (initAlloc restos).map Prod.fst = List.range restos.length :=
  map_fst_enum_map restos (fun _ => (0 : Int))

theorem dget_enumFrom_map (f : Nat → Resto → Int) (l : List Resto)
    (s i : Nat) (h : i < l.length) :
    dget ((l.enumFrom s).map (fun p => (p.1, f p.1 p.2))) (s + i) =
      f (s + i) (l.get ⟨i, h⟩) := by
  induction l generalizing s i with
  | nil => simp at h
  | cons a t ih =>
    cases i with
    | zero => simp [List.enumFrom, dget_cons]
    | succ j =>
      have hj : j < t.length := by simpa using h
      rw [List.enumFrom]
      simp only [List.map_cons]
      rw [dget_cons, if_neg (by omega)]
      have hrec := ih (s + 1) j hj
      rw [show s + (j + 1) = (s + 1) + j by omega]
      simpa using hrec

theorem dget_initCapLeft (restos : List Resto) (i : Nat)
    (h : i < restos.length) :
    dget (initCapLeft restos) i = computeExploitableCapacity restos[i] := by
  have hrec := dget_enumFrom_map (fun _ r => computeExploitableCapacity r)
    restos 0 i h
  simpa [initCapLeft, List.enum] using hrec

theorem dget_clampCapacity (restos : List Resto) (m : List (Nat × Int))
    (k : Nat) (h : k < restos.length) :
    dget (clampCapacity restos m) k =
      min (dget m k) (computeExploitableCapacity restos[k]) := by
  have hrec := dget_enumFrom_map
    (fun j r => min (dget m j) (computeExploitableCapacity r)) restos 0 k h
  simpa [clampCapacity, List.enum] using hrec

theorem clampCapacity_map_fst (restos : List Resto) (m : List (Nat × Int)) :
    (clampCapacity restos m).map Prod.fst = List.range restos.length :=
  map_fst_enum_map restos
    (fun p => min (dget m p.1) (computeExploitableCapacity p.2))

theorem dget_initAlloc (restos : List Resto) (k : Nat) :
    dget (initAlloc restos) k = 0 := by
  apply dget_eq_zero_of_all_zero
  intro p hp
  simp only [initAlloc, List.mem_map] at hp
  obtain ⟨q, _, hq⟩ := hp
  rw [← hq]

theorem dget_initCapLeft_nonneg (restos : List Resto) (k : Nat) :
    0 ≤ dget (initCapLeft restos) k := by
  apply dget_nonneg
  intro p hp
  simp only [initCapLeft, List.mem_map] at hp
  obtain ⟨q, _, hq⟩ := hp
  rw [← hq]
  exact le_max_left 0 _

theorem allocInv_init (restos : List Resto) :
    AllocInv (fun k => dget (initCapLeft restos) k)
      (initCapLeft restos, initAlloc restos) := by
  refine ⟨?_, ?_, ?_⟩
  · rw [initCapLeft_map_fst, initAlloc_map_fst]
  · exact fun k => dget_initCapLeft_nonneg restos k
  · intro k
    show dget (initAlloc restos) k + dget (initCapLeft restos) k =
      dget (initCapLeft restos) k
    rw [dget_initAlloc]
    omega

/-! ## `rankedEntries` lemmas -/

theorem rankedEntries_ok_nil (budgets : Segment → Option ℚ) (seg : Segment)
    (pl : List (Nat × Resto)) (l : List (Nat × ℚ))
    (h : rankedEntries budgets seg pl = .ok l) : l = [] := by
  induction pl with
  | nil =>
    rw [rankedEntries] at h
    cases h
    rfl
  | cons p rest ih =>
    obtain ⟨i, r⟩ := p
    rw [rankedEntries] at h
    split at h
    · simp [attractionScore] at h
    · exact ih h

theorem rankedEntries_error_of_eligible (budgets : Segment → Option ℚ)
    (seg : Segment) (pl : List (Nat × Resto))
    (h : ∃ p ∈ pl, isEligibleByBudget budgets p.2 seg) :
    rankedEntries budgets seg pl = .error .attributeError := by
  induction pl with
  | nil => simp at h
  | cons p rest ih =>
    obtain ⟨i, r⟩ := p
    rw [rankedEntries]
    split
    · rfl
    · rename_i hne
      apply ih
      obtain ⟨p2, hp2, helig⟩ := h
      rcases List.mem_cons.mp hp2 with hp2 | hp2
      · rw [hp2] at helig
        exact absurd helig hne
      · exact ⟨p2, hp2, helig⟩

theorem exists_enumFrom_mem {α : Type} (l : List α) (r : α) (h : r ∈ l)
    (s : Nat) : ∃ i, (i, r) ∈ l.enumFrom s := by
  induction l generalizing s with
  | nil => simp at h
  | cons a t ih =>
    rcases List.mem_cons.mp h with h | h
    · exact ⟨s, by rw [h, List.enumFrom]; exact List.mem_cons_self _ _⟩
    · obtain ⟨i, hi⟩ := ih h (s + 1)
      exact ⟨i, by rw [List.enumFrom]; exact List.mem_cons_of_mem _ hi⟩

/-! ## Stable descending sort lemmas -/

theorem mem_insertDesc (x y : Nat × ℚ) (l : List (Nat × ℚ)) :
    y ∈ insertDesc x l ↔ y = x ∨ y ∈ l := by
  induction l with
  | nil => simp [insertDesc]
  | cons z zs ih =>
    rw [insertDesc]
    split
    · simp only [List.mem_cons, ih]
      tauto
    · simp [List.mem_cons]

theorem mem_sortDesc (y : Nat × ℚ) (l : List (Nat × ℚ)) :
    y ∈ sortDesc l ↔ y ∈ l := by
  induction l with
  | nil => simp [sortDesc]
  | cons x xs ih =>
    rw [sortDesc, mem_insertDesc]
    simp [ih]

theorem pairwise_insertDesc (x : Nat × ℚ) (l : List (Nat × ℚ))
    (hl : l.Pairwise rankOrder) (hidx : ∀ y ∈ l, x.1 < y.1) :
    (insertDesc x l).Pairwise rankOrder := by
  induction l with
  | nil => simp [insertDesc, List.pairwise_cons]
  | cons y ys ih =>
    rw [List.pairwise_cons] at hl
    obtain ⟨hy, hys⟩ := hl
    rw [insertDesc]
    split
    · rename_i hlt
      rw [List.pairwise_cons]
      refine ⟨?_, ih hys (fun z hz => hidx z (List.mem_cons_of_mem _ hz))⟩
      intro z hz
      rcases (mem_insertDesc x z ys).mp hz with hz | hz
      · subst hz
        exact Or.inl hlt
      · exact hy z hz
    · rename_i hge
      rw [List.pairwise_cons]
      constructor
      · intro z hz
        rcases List.mem_cons.mp hz with hz | hz
        · subst hz
          rcases lt_or_eq_of_le (not_lt.mp hge) with hlt | heq
          · exact Or.inl hlt
          · exact Or.inr ⟨heq.symm, hidx z (List.mem_cons_self _ _)⟩
        · rcases hy z hz with hlt | heq
          · rcases lt_or_eq_of_le (not_lt.mp hge) with h2 | h2
            · exact Or.inl (lt_trans hlt h2)
            · exact Or.inl (h2 ▸ hlt)
          · rcases lt_or_eq_of_le (not_lt.mp hge) with h2 | h2
            · exact Or.inl (heq.1 ▸ h2)
            · exact Or.inr ⟨h2.symm.trans heq.1, hidx z (List.mem_cons_of_mem _ hz)⟩
      · exact List.pairwise_cons.mpr ⟨hy, hys⟩

theorem sortDesc_pairwise (l : List (Nat × ℚ))
    (h : l.Pairwise (fun a b => a.1 < b.1)) :
    (sortDesc l).Pairwise rankOrder := by
  induction l with
  | nil => simp [sortDesc]
  | cons x xs ih =>
    rw [List.pairwise_cons] at h
    obtain ⟨hx, hxs⟩ := h
    rw [sortDesc]
    apply pairwise_insertDesc x (sortDesc xs) (ih hxs)
    intro y hy
    exact hx y ((mem_sortDesc y xs).mp hy)

/-! ## Inventory lemmas -/

theorem totalFinishedPortions_all_cons (b : FinishedBatch)
    (rest : List FinishedBatch) :
    totalFinishedPortions (b :: rest) none none =
      max 0 b.portions + totalFinishedPortions rest none none := by
  rw [totalFinishedPortions]
  simp [skipExpired, skipRecipe]

theorem totalFinishedPortions_all_nonneg (l : List FinishedBatch) :
    0 ≤ totalFinishedPortions l none none := by
  induction l with
  | nil => simp [totalFinishedPortions]
  | cons b rest ih =>
    rw [totalFinishedPortions_all_cons]
    have : (0 : Int) ≤ max 0 b.portions := le_max_left 0 _
    omega

theorem sellFifoGo_sold_le (need : Int) (l : List FinishedBatch) :
    (sellFifoGo need l).1 ≤ totalFinishedPortions l none none := by
  induction l generalizing need with
  | nil =>
    rw [sellFifoGo]
    simp [totalFinishedPortions]
  | cons b rest ih =>
    rw [sellFifoGo, totalFinishedPortions_all_cons]
    have hmax : (0 : Int) ≤ max 0 b.portions := le_max_left 0 _
    split
    · have := totalFinishedPortions_all_nonneg rest
      simp only []
      omega
    · split
      · have := ih need
        omega
      · rename_i hneed hb
        dsimp only
        split
        · have := ih (need - min b.portions need)
          have hmin : min b.portions need ≤ b.portions := min_le_left _ _
          omega
        · have := ih (need - min b.portions need)
          have hmin : min b.portions need ≤ b.portions := min_le_left _ _
          omega

theorem mem_cleanupExpiredFinished (b : FinishedBatch)
    (l : List FinishedBatch) (t : Int)
    (h : b ∈ cleanupExpiredFinished l t) : ¬ b.isExpired t := by
  unfold cleanupExpiredFinished at h
  have := (List.mem_filter.mp h).2
  simpa using this

theorem totalFinishedPortions_no_expired (l : List FinishedBatch) (t : Int)
    (h : ∀ b ∈ l, ¬ b.isExpired t) :
    totalFinishedPortions l none (some t) =
      totalFinishedPortions l none none := by
  induction l with
  | nil => rfl
  | cons b rest ih =>
    rw [totalFinishedPortions, totalFinishedPortions]
    have hb : skipExpired b (some t) = false := by
      simp [skipExpired]
      exact h b (List.mem_cons_self _ _)
    rw [hb]
    have hrest := ih (fun x hx => h x (List.mem_cons_of_mem _ hx))
    simp only [skipExpired, skipRecipe, Bool.false_eq_true, if_false]
    rw [hrest]

/-! ## Notoriety-update lemmas -/

theorem notorietyDelta_le (t a : Int) : notorietyDelta t a ≤ 10/100 :=
  min_le_left _ _

theorem notorietyDelta_nonneg (t a : Int) (ht : 0 ≤ t) (ha : 0 ≤ a) :
    0 ≤ notorietyDelta t a := by
  unfold notorietyDelta notorietyFrac
  have h1 : (0 : ℚ) ≤ (t : ℚ) / (a : ℚ) := by
    apply div_nonneg <;> exact_mod_cast (by assumption)
  have h2 : (0 : ℚ) ≤ min 1 ((t : ℚ) / (a : ℚ)) := le_min (by norm_num) h1
  have h3 : (0 : ℚ) ≤ (2/100) * min 1 ((t : ℚ) / (a : ℚ)) * 100 := by positivity
  exact le_min (by norm_num) h3

theorem notorietyDelta_pos (t a : Int) (ht : 0 < t) (ha : 0 < a) :
    0 < notorietyDelta t a := by
  unfold notorietyDelta notorietyFrac
  have h1 : (0 : ℚ) < (t : ℚ) / (a : ℚ) := by
    apply div_pos <;> exact_mod_cast (by assumption)
  have h2 : (0 : ℚ) < min 1 ((t : ℚ) / (a : ℚ)) := lt_min (by norm_num) h1
  have h3 : (0 : ℚ) < (2/100) * min 1 ((t : ℚ) / (a : ℚ)) * 100 := by positivity
  exact lt_min (by norm_num) h3

theorem updateNotoriety_nonneg (noto : ℚ) (t a : Int) :
    0 ≤ updateNotoriety noto t a := le_max_left 0 _

theorem updateNotoriety_le_one (noto : ℚ) (t a : Int) :
    updateNotoriety noto t a ≤ 1 :=
  max_le (by norm_num) (min_le_left 1 _)

theorem updateNotoriety_approx (noto : ℚ) (t a : Int) (ht : 0 < t)
    (ha : 0 < a) (h0 : 0 ≤ noto) (h1 : noto ≤ 1) :
    noto * (1 - notorietyDelta t a) - 1/2000 ≤ updateNotoriety noto t a ∧
    updateNotoriety noto t a ≤ noto * (1 - notorietyDelta t a) + 1/2000 := by
  have hd0 : 0 < notorietyDelta t a := notorietyDelta_pos t a ht ha
  have hd1 : notorietyDelta t a ≤ 10/100 := notorietyDelta_le t a
  set x := noto * (1 - notorietyDelta t a) with hx
  have hx0 : 0 ≤ x := mul_nonneg h0 (by linarith)
  have hx1 : x < 1 := by
    have hfac : (1 - notorietyDelta t a) < 1 := by linarith
    have : x ≤ 1 - notorietyDelta t a := by
      calc x ≤ 1 * (1 - notorietyDelta t a) :=
        mul_le_mul_of_nonneg_right h1 (by linarith)
      _ = 1 - notorietyDelta t a := one_mul _
    linarith
  have hyl := le_pyRound (x * 1000)
  have hyu := pyRound_le (x * 1000)
  have hy0 : 0 ≤ pyRound (x * 1000) := pyRound_nonneg _ (by positivity)
  have hy1000 : pyRound (x * 1000) ≤ 1000 := by
    apply pyRound_le_of_lt
    push_cast
    linarith
  have hr3 : pyRound3 x = (pyRound (x * 1000) : ℚ) / 1000 := rfl
  have hr3l : x - 1/2000 ≤ pyRound3 x := by rw [hr3]; linarith
  have hr3u : pyRound3 x ≤ x + 1/2000 := by rw [hr3]; linarith
  have hr30 : 0 ≤ pyRound3 x := by
    rw [hr3]
    have : (0 : ℚ) ≤ (pyRound (x * 1000) : ℚ) := by exact_mod_cast hy0
    linarith
  have hr31 : pyRound3 x ≤ 1 := by
    rw [hr3]
    have : ((pyRound (x * 1000) : ℚ)) ≤ 1000 := by exact_mod_cast hy1000
    linarith
  have hupd : updateNotoriety noto t a = pyRound3 x := by
    unfold updateNotoriety
    rw [← hx, min_eq_right hr31, max_eq_right hr30]
  rw [hupd]
  exact ⟨hr3l, hr3u⟩

/-- The notoriety side effect of `_apply_client_losses`: with positive
demand and positive total loss the new notoriety is exactly
`updateNotoriety` at the computed total loss and the demanded count. -/
theorem applyClientLosses_noto_eq (noto : ℚ)
    (demanded capacity_rh cap_service available_finished sold : Int)
    (hd : 0 < demanded)
    (hl : 0 < (applyClientLosses noto demanded capacity_rh cap_service
      available_finished sold).1.lost_total) :
    (applyClientLosses noto demanded capacity_rh cap_service
      available_finished sold).2 =
    updateNotoriety noto
      (applyClientLosses noto demanded capacity_rh cap_service
        available_finished sold).1.lost_total demanded := by
  unfold applyClientLosses at *
  dsimp only at *
  rw [if_pos ⟨by omega, hl⟩, show max 0 demanded = demanded by omega]

/-! ## Claim theorems -/

/-- C1.  For every loss-attribution call made by the turn loop —
demanded `D ≥ 0`, both capacity clamps and the available stock
non-negative, and `S = min(D, cap_service, avail)` (the units actually
sold under uncorrupted stock) — the buckets returned by
`_apply_client_losses` are non-negative and sum exactly to `D - S`. -/
theorem apply_client_losses_buckets_balance (noto : ℚ)
    (demanded capacity_rh cap_service available_finished sold : Int)
    (hd : 0 ≤ demanded) (hrh : 0 ≤ capacity_rh) (hcs : 0 ≤ cap_service)
    (hav : 0 ≤ available_finished)
    (hsold : sold = min demanded (min cap_service available_finished)) :
    0 ≤ (applyClientLosses noto demanded capacity_rh cap_service
      available_finished sold).1.lost_stock ∧
    0 ≤ (applyClientLosses noto demanded capacity_rh cap_service
      available_finished sold).1.lost_capacity ∧
    0 ≤ (applyClientLosses noto demanded capacity_rh cap_service
      available_finished sold).1.lost_other ∧
    (applyClientLosses noto demanded capacity_rh cap_service
      available_finished sold).1.lost_stock +
    (applyClientLosses noto demanded capacity_rh cap_service
      available_finished sold).1.lost_capacity +
    (applyClientLosses noto demanded capacity_rh cap_service
      available_finished sold).1.lost_other = demanded - sold := by
  unfold applyClientLosses
  dsimp only
  omega

/-- Witness for C1 at `D = 10, cap_rh = 10, cap_service = 5, avail = 3,
S = 3`: all buckets non-negative and summing to `7`. -/
theorem apply_client_losses_buckets_balance_witness :
    0 ≤ (applyClientLosses (1/2) 10 10 5 3 3).1.lost_stock ∧
    0 ≤ (applyClientLosses (1/2) 10 10 5 3 3).1.lost_capacity ∧
    0 ≤ (applyClientLosses (1/2) 10 10 5 3 3).1.lost_other ∧
    (applyClientLosses (1/2) 10 10 5 3 3).1.lost_stock +
    (applyClientLosses (1/2) 10 10 5 3 3).1.lost_capacity +
    (applyClientLosses (1/2) 10 10 5 3 3).1.lost_other = 10 - 3 :=
  apply_client_losses_buckets_balance (1/2) 10 10 5 3 3 (by omega)
    (by omega) (by omega) (by omega) (by omega)

/-- C2, counterexample.  On Scenario D
(`demanded=100, cap_rh=80, cap_service=60, avail=40, sold=40`) the code
does NOT return `lost_stock = 20`: the stock stage
`min(cap_service_stage, avail) = 40` equals the 40 units served, so
`lost_stock = 0`. -/
theorem scenario_d_lost_stock_not_twenty :
    (applyClientLosses (1/2) 100 80 60 40 40).1.lost_stock ≠ 20 := by
  unfold applyClientLosses
  dsimp only
  omega

/-- C2, amended.  On Scenario D the loss attributor returns
`lost_stock = 0`, `lost_capacity = 20`, `lost_other = 40`,
`lost_total = 60`. -/
theorem scenario_d_buckets :
    (applyClientLosses (1/2) 100 80 60 40 40).1 =
      ⟨60, 0, 20, 40⟩ := by
  unfold applyClientLosses
  norm_num

/-- C5, code bug.  With 100 service minutes left, 10 clients served and
the fast-food 1.5 minutes per cover (`need = 15`),
`_consume_service_minutes` leaves 70 minutes — it subtracts `need` twice
(once through `Restaurant.consume_service_minutes`, once through the
unconditional "fallback" decrement), while the claim (and the function's
own docstring, which says the fallback applies only when the method is
absent) gives `max(0, 100 - 15) = 85`. -/
theorem consume_service_minutes_double_decrement :
    consumeServiceMinutesTurn 100 (3/2) 10 = 70 ∧
    consumeServiceMinutes 100 (serviceMinutesNeed (3/2) 10) = 85 := by
  have hneed : serviceMinutesNeed (3/2) 10 = 15 := by
    unfold serviceMinutesNeed
    rw [show ((max 0 (10 : Int) : Int) : ℚ) = 10 by norm_num,
      show (3/2 : ℚ) * 10 = 15 by norm_num]
    exact pyRound_eq 15 15 (by norm_num) (by norm_num)
  constructor
  · unfold consumeServiceMinutesTurn
    dsimp only
    rw [hneed]
    unfold consumeServiceMinutes
    omega
  · rw [hneed]
    unfold consumeServiceMinutes
    omega

/-- C8, counterexample.  At notoriety `0.006` a full loss
(`demanded = 100`, everything else zero, so `total = 100` and
`delta = 0.10`) yields `round(0.006 * 0.9, 3) = round(0.0054, 3) =
0.005`, a 16.7% relative drop — more than the claimed 10% ceiling. -/
theorem notoriety_drop_exceeds_ten_percent :
    (applyClientLosses (6/1000) 100 0 0 0 0).2 <
      (1 - 10/100) * (6/1000) := by
  have heq : (applyClientLosses (6/1000) 100 0 0 0 0).2 =
      updateNotoriety (6/1000) 100 100 := by
    unfold applyClientLosses
    norm_num
  rw [heq]
  have hdelta : notorietyDelta 100 100 = 10/100 := by
    unfold notorietyDelta notorietyFrac
    norm_num
  have hval : (6/1000 : ℚ) * (1 - notorietyDelta 100 100) = 27/5000 := by
    rw [hdelta]; norm_num
  unfold updateNotoriety
  rw [hval, pyRound3_eq (27/5000) 5 (by norm_num) (by norm_num)]
  norm_num

/-- C8, amended.  Whenever `D > 0` and the computed total loss is
positive, the new notoriety equals
`clamp(round(noto * (1 - delta), 3), 0, 1)` with
`delta = min(0.10, 0.02 * min(1, total/D) * 100)`; `delta` never exceeds
`0.10` (so the pre-rounding reduction is at most 10%), the result always
lies in `[0, 1]`, and for `noto ∈ [0, 1]` the realized value differs
from `noto * (1 - delta)` by at most `0.0005` (so rounding may push the
realized relative drop slightly past 10%, as the counterexample shows,
but never further than `0.0005` in absolute value). -/
theorem notoriety_update_bounds (noto : ℚ)
    (demanded capacity_rh cap_service available_finished sold : Int)
    (hd : 0 < demanded)
    (hl : 0 < (applyClientLosses noto demanded capacity_rh cap_service
      available_finished sold).1.lost_total)
    (hn0 : 0 ≤ noto) (hn1 : noto ≤ 1) :
    (applyClientLosses noto demanded capacity_rh cap_service
      available_finished sold).2 =
      updateNotoriety noto
        (applyClientLosses noto demanded capacity_rh cap_service
          available_finished sold).1.lost_total demanded ∧
    notorietyDelta (applyClientLosses noto demanded capacity_rh
      cap_service available_finished sold).1.lost_total demanded ≤
      10/100 ∧
    0 ≤ (applyClientLosses noto demanded capacity_rh cap_service
      available_finished sold).2 ∧
    (applyClientLosses noto demanded capacity_rh cap_service
      available_finished sold).2 ≤ 1 ∧
    noto * (1 - notorietyDelta (applyClientLosses noto demanded
      capacity_rh cap_service available_finished sold).1.lost_total
      demanded) - 1/2000 ≤
      (applyClientLosses noto demanded capacity_rh cap_service
        available_finished sold).2 ∧
    (applyClientLosses noto demanded capacity_rh cap_service
      available_finished sold).2 ≤
      noto * (1 - notorietyDelta (applyClientLosses noto demanded
        capacity_rh cap_service available_finished sold).1.lost_total
        demanded) + 1/2000 := by
  have heq := applyClientLosses_noto_eq noto demanded capacity_rh
    cap_service available_finished sold hd hl
  have happ := updateNotoriety_approx noto
    (applyClientLosses noto demanded capacity_rh cap_service
      available_finished sold).1.lost_total demanded hl hd hn0 hn1
  refine ⟨heq, notorietyDelta_le _ _, ?_, ?_, ?_, ?_⟩
  · rw [heq]; exact updateNotoriety_nonneg _ _ _
  · rw [heq]; exact updateNotoriety_le_one _ _ _
  · rw [heq]; exact happ.1
  · rw [heq]; exact happ.2

/-- Witness for C8 at notoriety `1/2`, `demanded = 10` and a total loss
of 10. -/
theorem notoriety_update_bounds_witness :
    (applyClientLosses (1/2) 10 0 0 0 0).2 =
      updateNotoriety (1/2)
        (applyClientLosses (1/2) 10 0 0 0 0).1.lost_total 10 ∧
    notorietyDelta (applyClientLosses (1/2) 10 0 0 0 0).1.lost_total 10 ≤
      10/100 ∧
    0 ≤ (applyClientLosses (1/2) 10 0 0 0 0).2 ∧
    (applyClientLosses (1/2) 10 0 0 0 0).2 ≤ 1 ∧
    (1/2 : ℚ) * (1 - notorietyDelta
      (applyClientLosses (1/2) 10 0 0 0 0).1.lost_total 10) - 1/2000 ≤
      (applyClientLosses (1/2) 10 0 0 0 0).2 ∧
    (applyClientLosses (1/2) 10 0 0 0 0).2 ≤
      (1/2 : ℚ) * (1 - notorietyDelta
        (applyClientLosses (1/2) 10 0 0 0 0).1.lost_total 10) + 1/2000 :=
  notoriety_update_bounds (1/2) 10 0 0 0 0 (by omega)
    (by unfold applyClientLosses; dsimp only; omega)
    (by norm_num) (by norm_num)

/-- C3, counterexample.  A vendor holds a G1 lot (5 portions at €10)
and an OLDER G3 lot (10 portions at €8): production order puts the G3
lot first in the `finished` list.  The sale for 8 portions walks the
list in position order — it never sorts by grade — so it returns €64
(8 G3 portions), not the €74 the claim predicts for grade-priority
consumption. -/
theorem inventory_sale_ignores_grade_priority :
    (sellFromFinishedFifo 8
      [⟨"G3", 8, 10, 0, 2⟩, ⟨"G1", 10, 5, 1, 2⟩]).2.1 ≠ 74 := by
  have hgo : sellFifoGo 8 [⟨"G3", 8, 10, 0, 2⟩, ⟨"G1", 10, 5, 1, 2⟩] =
      (8, 64, [⟨"G3", 8, 2, 0, 2⟩, ⟨"G1", 10, 5, 1, 2⟩]) := by
    norm_num [sellFifoGo]
  rw [sellFromFinishedFifo, hgo]
  rw [pyRound2_eq 64 6400 (by norm_num) (by norm_num)]
  norm_num

/-- C3, amended.  Inventory settlement consumes finished lots in list
(insertion = production) order, ignoring grade, crediting each consumed
unit at its own lot's price and removing depleted lots: with the older
G3 lot first, a request for 8 sells 8 G3 portions for €64, leaving 2 G3
portions and the whole G1 lot. -/
theorem inventory_sale_fifo_scenario :
    sellFromFinishedFifo 8
      [⟨"G3", 8, 10, 0, 2⟩, ⟨"G1", 10, 5, 1, 2⟩] =
      (8, 64, [⟨"G3", 8, 2, 0, 2⟩, ⟨"G1", 10, 5, 1, 2⟩]) := by
  have hgo : sellFifoGo 8 [⟨"G3", 8, 10, 0, 2⟩, ⟨"G1", 10, 5, 1, 2⟩] =
      (8, 64, [⟨"G3", 8, 2, 0, 2⟩, ⟨"G1", 10, 5, 1, 2⟩]) := by
    norm_num [sellFifoGo]
  rw [sellFromFinishedFifo, hgo]
  rw [pyRound2_eq 64 6400 (by norm_num) (by norm_num)]
  norm_num

/-- C4, counterexample.  `sell_from_finished_fifo` performs no expiry
check: a single lot of 5 portions that expired at turn 0 still sells 5
portions at turn 1, although the non-expired stock at call time is 0. -/
theorem sale_can_exceed_nonexpired_stock :
    ¬ ((sellFromFinishedFifo 5 [⟨"old", 8, 5, 0, 0⟩]).1 ≤
      totalFinishedPortions [⟨"old", 8, 5, 0, 0⟩] none (some 1)) := by
  have htot : totalFinishedPortions [⟨"old", 8, 5, 0, 0⟩] none (some 1) = 0 := by
    norm_num [totalFinishedPortions, skipExpired, skipRecipe,
      FinishedBatch.isExpired]
  have hgo : sellFifoGo 5 [⟨"old", 8, 5, 0, 0⟩] = (5, 40, []) := by
    norm_num [sellFifoGo]
  rw [htot, sellFromFinishedFifo, hgo]
  norm_num

/-- C4, amended.  The sale never exceeds the total portions present in
the `finished` list at call time (each lot clamped at zero) — expired
lots included, since the sale itself never checks expiry; expiry is
enforced separately by `cleanup_expired` at turn start, after which the
original claim holds: a sale from a cleaned-up inventory never exceeds
the non-expired total. -/
theorem sale_bounded_by_total_portions :
    (∀ (q : Int) (l : List FinishedBatch),
      (sellFromFinishedFifo q l).1 ≤ totalFinishedPortions l none none) ∧
    ∀ (q : Int) (l : List FinishedBatch) (t : Int),
      (sellFromFinishedFifo q (cleanupExpiredFinished l t)).1 ≤
        totalFinishedPortions (cleanupExpiredFinished l t) none (some t) := by
  constructor
  · intro q l
    exact sellFifoGo_sold_le q l
  · intro q l t
    rw [totalFinishedPortions_no_expired _ t
      (fun b hb => mem_cleanupExpiredFinished b l t hb)]
    exact sellFifoGo_sold_le q _

/-- C9, counterexample.  A lot with corrupted (negative) portions does
not make the sale fail: the operation completes normally, returning no
units, no revenue, and silently discarding the corrupt lot — there is no
invariant check anywhere in `sell_from_finished_fifo`. -/
theorem negative_lot_sale_completes_normally :
    sellFromFinishedFifo 5 [⟨"bad", 10, -3, 0, 2⟩] = (0, 0, []) := by
  have hgo : sellFifoGo 5 [⟨"bad", 10, -3, 0, 2⟩] = (0, 0, []) := by
    norm_num [sellFifoGo]
  rw [sellFromFinishedFifo, hgo]
  rw [pyRound2_eq 0 0 (by norm_num) (by norm_num)]
  norm_num

/-- C9, amended.  A finished lot with `portions ≤ 0` at the head of the
list is silently skipped (and dropped) by the sale whenever any quantity
is still wanted: the result is exactly the result of selling from the
rest of the list, with no error raised. -/
theorem negative_lot_silently_skipped (need : Int) (b : FinishedBatch)
    (rest : List FinishedBatch) (hb : b.portions ≤ 0) (hneed : 0 < need) :
    sellFromFinishedFifo need (b :: rest) =
      sellFromFinishedFifo need rest := by
  unfold sellFromFinishedFifo
  rw [sellFifoGo]
  rw [if_neg (by omega), if_pos hb]

/-- Witness for C9: a corrupt lot of `-3` portions ahead of a good lot
is skipped. -/
theorem negative_lot_silently_skipped_witness :
    sellFromFinishedFifo 2
      [⟨"bad", 10, -3, 0, 2⟩, ⟨"ok", 4, 3, 0, 2⟩] =
      sellFromFinishedFifo 2 [⟨"ok", 4, 3, 0, 2⟩] :=
  negative_lot_silently_skipped 2 ⟨"bad", 10, -3, 0, 2⟩
    [⟨"ok", 4, 3, 0, 2⟩] (by norm_num) (by norm_num)

/-! ## Market crash characterization -/

theorem rankedForSegment_error_of_eligible (budgets : Segment → Option ℚ)
    (restos : List Resto) (seg : Segment)
    (helig : ∃ r ∈ restos, isEligibleByBudget budgets r seg) :
    rankedForSegment budgets restos seg = .error .attributeError := by
  obtain ⟨r, hr, he⟩ := helig
  obtain ⟨i, hi⟩ := exists_enumFrom_mem restos r hr 0
  unfold rankedForSegment
  rw [rankedEntries_error_of_eligible budgets seg restos.enum
    ⟨(i, r), by simpa [List.enum] using hi, he⟩]
  rfl

theorem segLoop_error (budgets : Segment → Option ℚ) (restos : List Resto)
    (segs : List (Segment × Int))
    (st : List (Nat × Int) × List (Nat × Int)) (seg : Segment) (q : Int)
    (hmem : (seg, q) ∈ segs) (hq : 0 < q)
    (helig : ∃ r ∈ restos, isEligibleByBudget budgets r seg) :
    segLoop budgets restos segs st = .error .attributeError := by
  induction segs generalizing st with
  | nil => simp at hmem
  | cons p rest ih =>
    obtain ⟨seg2, q2⟩ := p
    rw [segLoop]
    rcases List.mem_cons.mp hmem with hmem | hmem
    · obtain ⟨hseg, hq2⟩ := Prod.mk.injEq .. ▸ hmem
      subst hseg
      subst hq2
      rw [if_neg (by omega)]
      rw [rankedForSegment_error_of_eligible budgets restos seg helig]
    · by_cases hq2 : q2 ≤ 0
      · rw [if_pos hq2]
        exact ih st hmem
      · rw [if_neg hq2]
        cases hrk : rankedForSegment budgets restos seg2 with
        | error e =>
          cases e
          rfl
        | ok ranked =>
          have hnil : ranked = [] := by
            unfold rankedForSegment at hrk
            cases hre : rankedEntries budgets seg2 restos.enum with
            | error e => rw [hre] at hrk; simp [Except.map] at hrk
            | ok l0 =>
              rw [hre] at hrk
              simp only [Except.map] at hrk
              cases hrk
              rw [rankedEntries_ok_nil budgets seg2 _ l0 hre]
              rfl
          subst hnil
          show segLoop budgets restos rest st = Except.error PyErr.attributeError
          exact ih st hmem

/-! ## Market claim theorems -/

/-- C6, counterexample.  An empty-menu restaurant (median price 0,
hence trivially budget-eligible) facing one segment of 100 customers:
`allocate_demand` does not return a map at all — it raises
`AttributeError` out of `attraction_score` (scoring.py:317 reads
`seg.type_client` on a `Segment`). -/
theorem allocate_demand_raises_attribute_error :
    allocateDemand (fun _ => none) [⟨RType.fastFood, [], 10⟩]
      ⟨100, [(Segment.actif, 1)]⟩ = .error .attributeError := by
  have hqty : computeSegmentQuantities ⟨100, [(Segment.actif, 1)]⟩ =
      [(Segment.actif, 100)] := by
    unfold computeSegmentQuantities
    simp only [List.map_cons, List.map_nil]
    rw [show ((100 : Int) : ℚ) * 1 = 100 by norm_num]
    rw [pyRound_eq 100 100 (by norm_num) (by norm_num)]
  unfold allocateDemand
  rw [hqty, segLoop_error (fun _ => none) _ _ _ Segment.actif 100
    (List.mem_cons_self _ _) (by omega) ?helig]
  · rfl
  case helig =>
    refine ⟨⟨RType.fastFood, [], 10⟩, List.mem_cons_self _ _, ?_⟩
    unfold isEligibleByBudget medianMenuPrice budgetTolerance
    norm_num

/-- C6, amended.  `allocate_demand` mutates nothing and is a fixed
function of its inputs (the embedding is state-free because the source
performs no write on any restaurant), and the ranking sort orders any
index-increasing entry list by score descending with equal-score entries
kept in original index order; however the call completes with a map only
when no positive-quantity segment has a budget-eligible vendor — as soon
as one does, `allocate_demand` raises `AttributeError` from
`attraction_score` instead of returning. -/
theorem allocate_demand_pure_stable_or_raises
    (budgets : Segment → Option ℚ) (restos : List Resto) (sc : Scenario)
    (seg : Segment) (q : Int) (l : List (Nat × ℚ))
    (hl : l.Pairwise (fun a b => a.1 < b.1))
    (hmem : (seg, q) ∈ computeSegmentQuantities sc) (hq : 0 < q)
    (helig : ∃ r ∈ restos, isEligibleByBudget budgets r seg) :
    allocateDemand budgets restos sc = allocateDemand budgets restos sc ∧
    (sortDesc l).Pairwise rankOrder ∧
    allocateDemand budgets restos sc = .error .attributeError := by
  refine ⟨rfl, sortDesc_pairwise l hl, ?_⟩
  unfold allocateDemand
  rw [segLoop_error budgets restos _ _ seg q hmem hq helig]
  rfl

/-- C7.  Whenever `allocate_demand` returns a map, every vendor's total
allocation (accumulated across all segments) is bounded by its
exploitable capacity, and `clamp_capacity` applied to that very map
returns it unchanged. -/
theorem allocate_demand_within_capacity (budgets : Segment → Option ℚ)
    (restos : List Resto) (sc : Scenario) (m : List (Nat × Int))
    (hok : allocateDemand budgets restos sc = .ok m) :
    (∀ (i : Nat) (h : i < restos.length),
      dget m i ≤ computeExploitableCapacity restos[i]) ∧
    clampCapacity restos m = m := by
  unfold allocateDemand at hok
  cases hseg : segLoop budgets restos (computeSegmentQuantities sc)
      (initCapLeft restos, initAlloc restos) with
  | error e => rw [hseg] at hok; simp [Except.map] at hok
  | ok st2 =>
    rw [hseg] at hok
    simp only [Except.map, Except.ok.injEq] at hok
    obtain ⟨hkeys0, hpos, hsum⟩ := segLoop_ok_inv budgets restos
      (fun k => dget (initCapLeft restos) k) _ _ st2
      (allocInv_init restos) hseg
    have hkeys := segLoop_ok_alloc_keys budgets restos _ _ st2 hseg
    have hbound : ∀ k : Nat, dget st2.2 k ≤ dget (initCapLeft restos) k := by
      intro k
      have h1 := hpos k
      have h2 : dget st2.2 k + dget st2.1 k = dget (initCapLeft restos) k :=
        hsum k
      omega
    have hrange : st2.2.map Prod.fst = List.range restos.length := by
      rw [hkeys]
      show (initAlloc restos).map Prod.fst = List.range restos.length
      exact initAlloc_map_fst restos
    have hlen : st2.2.length = restos.length := by
      have := congrArg List.length hrange
      simpa using this
    subst hok
    constructor
    · intro i h
      have hb := hbound i
      rw [dget_initCapLeft restos i h] at hb
      exact hb
    · have hrecon := assoc_reconstruct st2.2 (List.range restos.length)
        hrange (List.nodup_range _)
      have hreconC := assoc_reconstruct (clampCapacity restos st2.2)
        (List.range restos.length) (clampCapacity_map_fst restos st2.2)
        (List.nodup_range _)
      rw [hreconC]
      conv_rhs => rw [hrecon]
      apply List.map_congr_left
      intro k hkmem
      have hk : k < restos.length := List.mem_range.mp hkmem
      rw [dget_clampCapacity restos st2.2 k hk]
      have hb := hbound k
      rw [dget_initCapLeft restos k hk] at hb
      rw [min_eq_left hb]

/-- Witness helper: a restaurant whose single menu item costs 100 is
budget-ineligible under the default budget 15 (median 100 > 18). -/
theorem expensive_resto_ineligible (seg : Segment) :
    ¬ isEligibleByBudget (fun _ => none)
      ⟨RType.fastFood, [⟨100⟩], 10⟩ seg := by
  norm_num [isEligibleByBudget, medianMenuPrice, npMedian, sortLe,
    insertLe, budgetTolerance, List.getD]

/-- Witness helper: the one-segment scenario with population 100 and
share 1 yields the segment-quantity list `[(actif, 100)]`. -/
theorem witness_scenario_quantities :
    computeSegmentQuantities ⟨100, [(Segment.actif, 1)]⟩ =
      [(Segment.actif, 100)] := by
  unfold computeSegmentQuantities
  simp only [List.map_cons, List.map_nil]
  rw [show ((100 : Int) : ℚ) * 1 = 100 by norm_num]
  rw [pyRound_eq 100 100 (by norm_num) (by norm_num)]

/-- Witness helper: with one budget-ineligible restaurant,
`allocate_demand` completes and attributes zero customers. -/
theorem allocate_demand_eval_ineligible :
    allocateDemand (fun _ => none)
      [⟨RType.fastFood, [⟨100⟩], 10⟩] ⟨100, [(Segment.actif, 1)]⟩ =
      .ok [(0, 0)] := by
  have hranked : rankedForSegment (fun _ => none)
      [⟨RType.fastFood, [⟨100⟩], 10⟩] Segment.actif = .ok [] := by
    unfold rankedForSegment
    rw [show ([⟨RType.fastFood, [⟨100⟩], 10⟩] : List Resto).enum =
      [(0, ⟨RType.fastFood, [⟨100⟩], 10⟩)] from rfl]
    rw [rankedEntries, if_neg (expensive_resto_ineligible Segment.actif),
      rankedEntries]
    rfl
  unfold allocateDemand
  rw [witness_scenario_quantities, segLoop,
    if_neg (show ¬ (100 : Int) ≤ 0 by omega), hranked]
  rfl

/-- Witness helper: with two budget-ineligible restaurants,
`allocate_demand` completes with the zero map over keys `{0, 1}`. -/
theorem allocate_demand_eval_ineligible_two :
    allocateDemand (fun _ => none)
      [⟨RType.fastFood, [⟨100⟩], 10⟩, ⟨RType.fastFood, [⟨100⟩], 10⟩]
      ⟨100, [(Segment.actif, 1)]⟩ = .ok [(0, 0), (1, 0)] := by
  have hranked : rankedForSegment (fun _ => none)
      [⟨RType.fastFood, [⟨100⟩], 10⟩, ⟨RType.fastFood, [⟨100⟩], 10⟩]
      Segment.actif = .ok [] := by
    unfold rankedForSegment
    rw [show ([⟨RType.fastFood, [⟨100⟩], 10⟩,
        ⟨RType.fastFood, [⟨100⟩], 10⟩] : List Resto).enum =
      [(0, ⟨RType.fastFood, [⟨100⟩], 10⟩),
       (1, ⟨RType.fastFood, [⟨100⟩], 10⟩)] from rfl]
    rw [rankedEntries, if_neg (expensive_resto_ineligible Segment.actif),
      rankedEntries, if_neg (expensive_resto_ineligible Segment.actif),
      rankedEntries]
    rfl
  unfold allocateDemand
  rw [witness_scenario_quantities, segLoop,
    if_neg (show ¬ (100 : Int) ≤ 0 by omega), hranked]
  rfl

/-- Witness for C7: on the completed call with one ineligible
restaurant, the zero allocation is within capacity and is a fixed point
of `clamp_capacity`. -/
theorem allocate_demand_within_capacity_witness :
    (∀ (i : Nat)
      (h : i < ([⟨RType.fastFood, [⟨100⟩], 10⟩] : List Resto).length),
      dget [(0, 0)] i ≤ computeExploitableCapacity
        ([⟨RType.fastFood, [⟨100⟩], 10⟩] : List Resto)[i]) ∧
    clampCapacity [⟨RType.fastFood, [⟨100⟩], 10⟩] [(0, 0)] = [(0, 0)] :=
  allocate_demand_within_capacity (fun _ => none)
    [⟨RType.fastFood, [⟨100⟩], 10⟩] ⟨100, [(Segment.actif, 1)]⟩
    [(0, 0)] allocate_demand_eval_ineligible

/-- C10.  Whenever `allocate_demand` returns a map over a vendor list of
length `n`, its key list is exactly `0, …, n-1` in order: every vendor
appears (vendors that got nothing appear with count 0, as in the
witness) and no other key occurs. -/
theorem allocate_demand_key_set (budgets : Segment → Option ℚ)
    (restos : List Resto) (sc : Scenario) (m : List (Nat × Int))
    (hok : allocateDemand budgets restos sc = .ok m) :
    m.map Prod.fst = List.range restos.length := by
  unfold allocateDemand at hok
  cases hseg : segLoop budgets restos (computeSegmentQuantities sc)
      (initCapLeft restos, initAlloc restos) with
  | error e => rw [hseg] at hok; simp [Except.map] at hok
  | ok st2 =>
    rw [hseg] at hok
    simp only [Except.map, Except.ok.injEq] at hok
    subst hok
    rw [segLoop_ok_alloc_keys budgets restos _ _ st2 hseg]
    show (initAlloc restos).map Prod.fst = List.range restos.length
    exact initAlloc_map_fst restos

/-- Witness for C10: the completed two-vendor call returns the map with
key list `[0, 1] = range 2`, the ineligible vendors appearing with
count 0. -/
theorem allocate_demand_key_set_witness :
    ([(0, 0), (1, 0)] : List (Nat × Int)).map Prod.fst =
      List.range ([⟨RType.fastFood, [⟨100⟩], 10⟩,
        ⟨RType.fastFood, [⟨100⟩], 10⟩] : List Resto).length :=
  allocate_demand_key_set (fun _ => none)
    [⟨RType.fastFood, [⟨100⟩], 10⟩, ⟨RType.fastFood, [⟨100⟩], 10⟩]
    ⟨100, [(Segment.actif, 1)]⟩ [(0, 0), (1, 0)]
    allocate_demand_eval_ineligible_two

/-- Witness for C6 (amended): at the crashing concrete input the
conjunction holds, with the stable-sort clause instantiated at a list
with a score tie. -/
theorem allocate_demand_pure_stable_or_raises_witness :
    (allocateDemand (fun _ => none) [⟨RType.fastFood, [], 10⟩]
      ⟨100, [(Segment.actif, 1)]⟩ =
     allocateDemand (fun _ => none) [⟨RType.fastFood, [], 10⟩]
      ⟨100, [(Segment.actif, 1)]⟩) ∧
    (sortDesc [(0, 1), (1, 2), (2, 1)]).Pairwise rankOrder ∧
    allocateDemand (fun _ => none) [⟨RType.fastFood, [], 10⟩]
      ⟨100, [(Segment.actif, 1)]⟩ = .error .attributeError :=
  allocate_demand_pure_stable_or_raises (fun _ => none)
    [⟨RType.fastFood, [], 10⟩] ⟨100, [(Segment.actif, 1)]⟩
    Segment.actif 100 [(0, 1), (1, 2), (2, 1)]
    (by norm_num)
    (by rw [witness_scenario_quantities]; exact List.mem_cons_self _ _)
    (by omega)
    ⟨⟨RType.fastFood, [], 10⟩, List.mem_cons_self _ _, by
      norm_num [isEligibleByBudget, medianMenuPrice, budgetTolerance]⟩

end FoodOps
